import Mathlib

/-! Constant-addend transform (`summary/lambda/ex/1.cpp`)

A shallow embedding of the program and the properties of its specification.

* The C++ type `int` is modelled as `Int` restricted to the signed 32-bit range;
  the result of `x + value` is reduced to that range by `wrap32` (two's complement).
* `vector<int>` is modelled as `List Int`; `std::transform` over `v.begin() .. v.end()`
  with output iterator `v.begin()` is an index loop that reads and overwrites one
  element of the current vector per step.
* `cout` is modelled as the string of all characters written so far.
-/

namespace Spec2Proof

/-! ## The machine type `int` -/

/-- Smallest value of a signed 32-bit `int`. -/
def INT_MIN : Int := -2147483648

/-- Largest value of a signed 32-bit `int`. -/
def INT_MAX : Int := 2147483647

/-- Values representable in a signed 32-bit `int`. -/
def inInt32 (z : Int) : Prop := INT_MIN ≤ z ∧ z ≤ INT_MAX

instance (z : Int) : Decidable (inInt32 z) := by
  unfold inInt32; exact inferInstance

/-- Reduction of an exact integer to the signed 32-bit range, modulo `2^32`. -/
def wrap32 (z : Int) : Int := (z + 2147483648) % 4294967296 - 2147483648

/-- Machine addition of two `int` values: the `+` of `x + value`. -/
def int_add (x y : Int) : Int := wrap32 (x + y)

/-! ## The four addend providers -/

/-- Variant A, `struct Adder`: the constructor `Adder(int v) : value(v)` is `Adder.mk`. -/
structure Adder where
  value : Int
  deriving DecidableEq, Repr

/-- Member `int operator()(int x) const` of `Adder`: `return x + value;`. -/
def Adder.call (self : Adder) (x : Int) : Int := int_add x self.value

/-- Closure object of the lambda `[add_value](int x)` of `test_trans_2`: the capture list
copies `add_value` into the closure when the lambda expression is evaluated. -/
structure Lambda2 where
  add_value : Int
  deriving DecidableEq, Repr

/-- Body of the lambda of `test_trans_2`: `return x + add_value;`. -/
def Lambda2.call (self : Lambda2) (x : Int) : Int := int_add x self.add_value

/-- Closure object of the lambda `[add_value](int x)` of `test_trans_3`. -/
structure Lambda3 where
  add_value : Int
  deriving DecidableEq, Repr

/-- Body of the lambda of `test_trans_3`: `return x + add_value;`. -/
def Lambda3.call (self : Lambda3) (x : Int) : Int := int_add x self.add_value

/-- The function object `plus<int>()`: `operator()(x, y)` returns `x + y`. -/
def plus (x y : Int) : Int := int_add x y

/-- The adaptor `binder2nd`: it stores the binary operation and a copy of the bound
second argument. -/
structure binder2nd where
  op : Int → Int → Int
  value : Int

/-- Member `operator()(x)` of `binder2nd`: `return op(x, value);`. -/
def binder2nd.call (self : binder2nd) (x : Int) : Int := self.op x self.value

/-- The helper `bind2nd(op, x)`: builds `binder2nd(op, x)`. -/
def bind2nd (op : Int → Int → Int) (x : Int) : binder2nd := ⟨op, x⟩

/-! ## The transform primitive -/

/-- The loop of `std::transform(first, last, d_first, op)` with `d_first = first`:
`n` elements remain before `last`, `i` is the position of `first`; each step performs
`*d_first++ = op(*first++)` on the current vector. -/
def transformLoop (op : Int → Int) : Nat → Nat → List Int → List Int
  | 0, _, v => v
  | n + 1, i, v =>
    match v[i]? with
    | some x => transformLoop op n (i + 1) (v.set i (op x))
    | none => v

/-- The call `transform(v.begin(), v.end(), v.begin(), op)`; the value is `v` afterwards. -/
def transform (op : Int → Int) (v : List Int) : List Int :=
  transformLoop op v.length 0 v

/-- Line 23: `transform(v.begin(), v.end(), v.begin(), Adder(add_value))`. -/
def trans_1 (v : List Int) (add_value : Int) : List Int :=
  transform (Adder.mk add_value).call v

/-- Lines 37-39: the transform with the by-value lambda of `test_trans_2`. -/
def trans_2 (v : List Int) (add_value : Int) : List Int :=
  transform (Lambda2.mk add_value).call v

/-- Lines 53-55: the transform with the by-value lambda of `test_trans_3`. -/
def trans_3 (v : List Int) (add_value : Int) : List Int :=
  transform (Lambda3.mk add_value).call v

/-- Line 68: `transform(v.begin(), v.end(), v.begin(), bind2nd(plus<int>(), add_value))`. -/
def trans_4 (v : List Int) (add_value : Int) : List Int :=
  transform (bind2nd plus add_value).call v

/-! ## The printer -/

/-- Decimal text written by `cout << elem` for an `int`: the digits, after a minus sign
when the value is negative. -/
def decimal : Int → String
  | Int.ofNat n => Nat.repr n
  | Int.negSucc n => "-" ++ Nat.repr (n + 1)

/-- The loop `for (const auto& elem : v) cout << elem << " ";` acting on the stream. -/
def printLoop : List Int → String → String
  | [], out => out
  | elem :: rest, out => printLoop rest (out ++ decimal elem ++ " ")

/-- The statement `cout << endl;`: writes one line break. -/
def endl (out : String) : String := out ++ "\n"

/-- The printer of every demonstration: the loop, then `cout << endl;`. -/
def printVec (v : List Int) (out : String) : String := endl (printLoop v out)

/-! ## The demonstrations and the driver -/

/-- Body of `test_trans_1` with its locals `v` and `add_value` as parameters. -/
def demo_1 (v : List Int) (add_value : Int) (out : String) : String :=
  printVec (trans_1 v add_value) out

/-- Body of `test_trans_2` with its locals `v` and `add_value` as parameters. -/
def demo_2 (v : List Int) (add_value : Int) (out : String) : String :=
  printVec (trans_2 v add_value) out

/-- Body of `test_trans_3` with its locals `v` and `add_value` as parameters. -/
def demo_3 (v : List Int) (add_value : Int) (out : String) : String :=
  printVec (trans_3 v add_value) out

/-- Body of `test_trans_4` with its locals `v` and `add_value` as parameters. -/
def demo_4 (v : List Int) (add_value : Int) (out : String) : String :=
  printVec (trans_4 v add_value) out

/-- The function `test_trans_1`: `v = {1, 2, 3, 4, 5}`, `add_value = 10`. -/
def test_trans_1 (out : String) : String := demo_1 [1, 2, 3, 4, 5] 10 out

/-- The function `test_trans_2`: `v = {1, 2, 3, 4, 5}`, `add_value = 10`. -/
def test_trans_2 (out : String) : String := demo_2 [1, 2, 3, 4, 5] 10 out

/-- The function `test_trans_3`: `v = {1, 2, 3, 4, 5}`, `add_value = 10`. -/
def test_trans_3 (out : String) : String := demo_3 [1, 2, 3, 4, 5] 10 out

/-- The function `test_trans_4`: `v = {1, 2, 3, 4, 5}`, `add_value = 10`. -/
def test_trans_4 (out : String) : String := demo_4 [1, 2, 3, 4, 5] 10 out

/-- The function `test`: four labels, each followed by `endl` and its demonstration. -/
def test (out : String) : String :=
  let out := endl (out ++ "approach 1: ")
  let out := test_trans_1 out
  let out := endl (out ++ "approach 2: ")
  let out := test_trans_2 out
  let out := endl (out ++ "approach 3: ")
  let out := test_trans_3 out
  let out := endl (out ++ "approach 4: ")
  test_trans_4 out

/-- The function `main`: runs `test` on an empty stream; the value is the pair of the
exit status and everything written to standard output. -/
def main : Int × String := (0, test "")

/-! ## Observation helpers used by the statements -/

/-- The text the specification gives for the printed line of `S`: for every element, in
index order, its decimal text followed by one space; then one line break. -/
def spec_line (S : List Int) : String :=
  String.join (S.map fun e => decimal e ++ " ") ++ "\n"

/-- Lines of a stream, read character by character: `cur` holds the characters of the
current line in reverse; a line break closes the line. -/
def linesAux : List Char → List Char → List String
  | [], cur => if cur = [] then [] else [String.mk cur.reverse]
  | c :: cs, cur =>
    if c = Char.ofNat 10 then String.mk cur.reverse :: linesAux cs []
    else linesAux cs (c :: cur)

/-- The lines of everything written to the stream, without their line breaks. -/
def linesOf (out : String) : List String := linesAux out.data []

/-- Whether a line ends with a space character. -/
def endsWithSpace (line : String) : Bool := line.data.getLast? == some (Char.ofNat 32)

/-- The locals of a demonstration that a later statement could assign to. -/
structure Locals where
  add_value : Int
  deriving DecidableEq, Repr

/-- The assignment `add_value = k2;` to the outer variable. -/
def Locals.assign (fr : Locals) (k2 : Int) : Locals := { fr with add_value := k2 }

/-- Scenario of capture by value for variant B: `int add_value = k;`, the lambda of
`test_trans_2` is built, then `add_value = k2;`, then the lambda is applied to `x`.
The value is the result of the application and the final outer variable. -/
def captured_2 (k k2 x : Int) : Int × Int :=
  let fr : Locals := ⟨k⟩
  let f := Lambda2.mk fr.add_value
  let fr := fr.assign k2
  (f.call x, fr.add_value)

/-- Scenario of capture by value for variant C (the lambda of `test_trans_3`). -/
def captured_3 (k k2 x : Int) : Int × Int :=
  let fr : Locals := ⟨k⟩
  let f := Lambda3.mk fr.add_value
  let fr := fr.assign k2
  (f.call x, fr.add_value)

/-- Scenario of capture by value for variant D (`bind2nd(plus<int>(), add_value)`). -/
def captured_4 (k k2 x : Int) : Int × Int :=
  let fr : Locals := ⟨k⟩
  let f := bind2nd plus fr.add_value
  let fr := fr.assign k2
  (f.call x, fr.add_value)

/-- Checked run of the loop of `std::transform` for an addend provider `op` with
addend `k`: the same steps as `transformLoop`, but the run faults (`none`) when the
element access `v[i]` is not at a valid index or when the exact sum `v[i] + k` lies
outside the range of `int`. -/
def transformLoopChecked (op : Int → Int) (k : Int) : Nat → Nat → List Int → Option (List Int)
  | 0, _, v => some v
  | n + 1, i, v =>
    match v[i]? with
    | some x =>
      if inInt32 (x + k) then transformLoopChecked op k n (i + 1) (v.set i (op x)) else none
    | none => none

/-- Checked run of the printer loop, position by position from `v.begin()` (`i`) with
`n` elements left before `v.end()`: it faults (`none`) when `v[i]` is not a valid
element. -/
def printLoopChecked : Nat → Nat → List Int → String → Option String
  | 0, _, _, out => some out
  | n + 1, i, v, out =>
    match v[i]? with
    | some elem => printLoopChecked n (i + 1) v (out ++ decimal elem ++ " ")
    | none => none

/-- Checked run of a demonstration body: the checked transform, the checked printer
loop, then `cout << endl;`. -/
def demoChecked (op : Int → Int) (v : List Int) (k : Int) (out : String) : Option String :=
  match transformLoopChecked op k v.length 0 v with
  | some w =>
    match printLoopChecked w.length 0 w out with
    | some o => some (endl o)
    | none => none
  | none => none

/-- Pieces of a text split at every occurrence of `sep`: `cur` holds the characters of
the current piece in reverse. -/
def splitAux (sep : Char) : List Char → List Char → List String
  | [], cur => [String.mk cur.reverse]
  | c :: cs, cur =>
    if c = sep then String.mk cur.reverse :: splitAux sep cs []
    else splitAux sep cs (c :: cur)

/-- The pieces of `s` between the occurrences of `sep`. -/
def splitAtChar (sep : Char) (s : String) : List String := splitAux sep s.data []

/-- A written line without its last character. -/
def withoutLast (line : String) : String := String.mk line.data.dropLast

/-! ## Lemmas on the machine type -/

theorem wrap32_of_inInt32 {z : Int} (h : inInt32 z) : wrap32 z = z := by
  unfold inInt32 INT_MIN INT_MAX at h
  unfold wrap32
  omega

theorem inInt32_wrap32 (z : Int) : inInt32 (wrap32 z) := by
  unfold inInt32 INT_MIN INT_MAX wrap32
  omega

theorem wrap32_add_wrap32_left (a b : Int) : wrap32 (wrap32 a + b) = wrap32 (a + b) := by
  unfold wrap32
  omega

theorem wrap32_add_wrap32_right (a b : Int) : wrap32 (a + wrap32 b) = wrap32 (a + b) := by
  unfold wrap32
  omega

theorem int_add_exact {x k : Int} (h : inInt32 (x + k)) : int_add x k = x + k :=
  wrap32_of_inInt32 h

/-! ## Lemmas on the transform loop -/

theorem transformLoop_append (op : Int → Int) (suf : List Int) :
    ∀ pre : List Int,
      transformLoop op suf.length pre.length (pre ++ suf) = pre ++ suf.map op := by
  induction suf with
  | nil => intro pre; simp [transformLoop]
  | cons x suf ih =>
    intro pre
    have hget : (pre ++ x :: suf)[pre.length]? = some x := by
      rw [List.getElem?_append_right (Nat.le_refl _)]; simp
    have hset : (pre ++ x :: suf).set pre.length (op x) = (pre ++ [op x]) ++ suf := by simp
    have hlen : pre.length + 1 = (pre ++ [op x]).length := by simp
    simp only [List.length_cons, transformLoop, hget, hset]
    rw [hlen, ih (pre ++ [op x])]
    simp

theorem transform_eq_map (op : Int → Int) (v : List Int) : transform op v = v.map op := by
  have h := transformLoop_append op v []
  simpa [transform] using h

theorem adder_call_eq (k : Int) : (Adder.mk k).call = fun x => int_add x k := rfl

theorem lambda2_call_eq (k : Int) : (Lambda2.mk k).call = fun x => int_add x k := rfl

theorem lambda3_call_eq (k : Int) : (Lambda3.mk k).call = fun x => int_add x k := rfl

theorem bind2nd_call_eq (k : Int) : (bind2nd plus k).call = fun x => int_add x k := rfl

theorem trans_1_eq_map (v : List Int) (k : Int) : trans_1 v k = v.map fun x => int_add x k := by
  rw [trans_1, transform_eq_map, adder_call_eq]

theorem trans_2_eq_map (v : List Int) (k : Int) : trans_2 v k = v.map fun x => int_add x k := by
  rw [trans_2, transform_eq_map, lambda2_call_eq]

theorem trans_3_eq_map (v : List Int) (k : Int) : trans_3 v k = v.map fun x => int_add x k := by
  rw [trans_3, transform_eq_map, lambda3_call_eq]

theorem trans_4_eq_map (v : List Int) (k : Int) : trans_4 v k = v.map fun x => int_add x k := by
  rw [trans_4, transform_eq_map, bind2nd_call_eq]

theorem map_int_add_exact (S : List Int) (k : Int) (h : ∀ x ∈ S, inInt32 (x + k)) :
    (S.map fun x => int_add x k) = S.map fun x => x + k :=
  List.map_congr_left fun x hx => int_add_exact (h x hx)

theorem map_int_add_post (S : List Int) (k : Int) :
    (S.map fun x => int_add x k).length = S.length ∧
    ∀ (i : Nat) (x : Int), S[i]? = some x → inInt32 (x + k) →
      (S.map fun x => int_add x k)[i]? = some (x + k) := by
  refine ⟨by simp, ?_⟩
  intro i x hx hin
  simp [hx, int_add_exact hin]

/-! ## Lemmas on the printer -/

theorem printLoop_data (S : List Int) :
    ∀ out : String,
      (printLoop S out).data
        = out.data ++ (S.map fun e => (decimal e ++ " ").data).flatten := by
  induction S with
  | nil => intro out; simp [printLoop]
  | cons e rest ih =>
    intro out
    simp [printLoop, ih, List.append_assoc]

theorem printVec_eq (S : List Int) (out : String) : printVec S out = out ++ spec_line S := by
  apply String.ext
  simp [printVec, endl, spec_line, printLoop_data, List.map_map, Function.comp_def]

/-! ## The claims -/

/-- C1, as stated, fails on 32-bit `int`: with `S = [2147483647]` and `k = 1` (both valid
`int` values) each of the four transforms leaves `-2147483648` at index 0, not
`S[0] + k = 2147483648`, a sum no `int` can hold. -/
theorem C1_counterexample :
    inInt32 2147483647 ∧ inInt32 1 ∧ ¬ inInt32 (2147483647 + 1) ∧
    trans_1 [2147483647] 1 = [-2147483648] ∧
    trans_2 [2147483647] 1 = [-2147483648] ∧
    trans_3 [2147483647] 1 = [-2147483648] ∧
    trans_4 [2147483647] 1 = [-2147483648] ∧
    (trans_1 [2147483647] 1)[0]? ≠ some (2147483647 + 1) := by
  decide

/-- C1, amended: for every sequence `S` and addend `k`, each of the four in-place
transforms (`test_trans_1` .. `test_trans_4`) yields a sequence of the same length, and
at every valid index `i` whose sum `S[i] + k` lies within the signed 32-bit range the
new element is `S[i] + k`. -/
theorem C1_transform_adds (S : List Int) (k : Int) :
    ∀ T ∈ [trans_1 S k, trans_2 S k, trans_3 S k, trans_4 S k],
      T.length = S.length ∧
      ∀ (i : Nat) (x : Int), S[i]? = some x → inInt32 (x + k) → T[i]? = some (x + k) := by
  intro T hT
  have hall : T = S.map fun x => int_add x k := by
    simp only [List.mem_cons, List.mem_singleton, List.not_mem_nil, or_false] at hT
    rcases hT with h | h | h | h
    · rw [h, trans_1_eq_map]
    · rw [h, trans_2_eq_map]
    · rw [h, trans_3_eq_map]
    · rw [h, trans_4_eq_map]
  rw [hall]
  exact map_int_add_post S k

/-- C1, amended, at the inputs of the program: index 4 of `[1, 2, 3, 4, 5]` with addend
`10` holds `5 + 10` after the transform of `test_trans_1`. -/
theorem C1_transform_adds_witness :
    ([1, 2, 3, 4, 5] : List Int)[4]? = some 5 ∧ inInt32 (5 + 10) ∧
    (trans_1 [1, 2, 3, 4, 5] 10).length = ([1, 2, 3, 4, 5] : List Int).length ∧
    (trans_1 [1, 2, 3, 4, 5] 10)[4]? = some (5 + 10) :=
  ⟨by decide, by decide,
    (C1_transform_adds [1, 2, 3, 4, 5] 10 _ (List.mem_cons_self _ _)).1,
    (C1_transform_adds [1, 2, 3, 4, 5] 10 _ (List.mem_cons_self _ _)).2 4 5
      (by decide) (by decide)⟩

/-- C2, as stated, fails on 32-bit `int`: with `x = 2147483647` and `k = 1` the four
providers agree with each other, but on `-2147483648`, which is not `x + k`. -/
theorem C2_counterexample :
    inInt32 2147483647 ∧ inInt32 1 ∧
    (Adder.mk 1).call 2147483647 = -2147483648 ∧
    (Lambda2.mk 1).call 2147483647 = -2147483648 ∧
    (Lambda3.mk 1).call 2147483647 = -2147483648 ∧
    (bind2nd plus 1).call 2147483647 = -2147483648 ∧
    (Adder.mk 1).call 2147483647 ≠ 2147483647 + 1 := by
  decide

/-- C2, amended: for every `x` and `k` the four providers `Adder(k)`, the lambda of
`test_trans_2`, the lambda of `test_trans_3` and `bind2nd(plus<int>(), k)` return the
same value, and that value is `x + k` whenever `x + k` lies within the signed 32-bit
range. -/
theorem C2_providers_agree (x k : Int) :
    (Adder.mk k).call x = (Lambda2.mk k).call x ∧
    (Lambda2.mk k).call x = (Lambda3.mk k).call x ∧
    (Lambda3.mk k).call x = (bind2nd plus k).call x ∧
    (inInt32 (x + k) →
      (Adder.mk k).call x = x + k ∧ (Lambda2.mk k).call x = x + k ∧
      (Lambda3.mk k).call x = x + k ∧ (bind2nd plus k).call x = x + k) :=
  ⟨rfl, rfl, rfl, fun h =>
    ⟨int_add_exact h, int_add_exact h, int_add_exact h, int_add_exact h⟩⟩

/-- C2, amended, at `x = 5`, `k = 10`: the sum is in range and every provider gives 15. -/
theorem C2_providers_agree_witness :
    inInt32 (5 + 10) ∧
    ((Adder.mk 10).call 5 = 5 + 10 ∧ (Lambda2.mk 10).call 5 = 5 + 10 ∧
      (Lambda3.mk 10).call 5 = 5 + 10 ∧ (bind2nd plus 10).call 5 = 5 + 10) :=
  ⟨by decide, (C2_providers_agree 5 10).2.2.2 (by decide)⟩

/-- C3: for every sequence `S` the printer appends to the stream exactly, in index
order, the decimal text of each element followed by one space (the last element
included), then exactly one line break; a one-element sequence `[e]` prints the decimal
text of `e`, one space, one line break. -/
theorem C3_printer_output (S : List Int) (out : String) :
    printVec S out = out ++ spec_line S ∧
    printVec S "" = String.join (S.map fun e => decimal e ++ " ") ++ "\n" ∧
    ∀ e : Int, printVec [e] "" = decimal e ++ " " ++ "\n" := by
  refine ⟨printVec_eq S out, ?_, ?_⟩
  · rw [printVec_eq]; simp [spec_line]
  · intro e
    rw [printVec_eq]
    apply String.ext
    simp [spec_line]

/-- C4: a full run exits with status 0 and writes, for N = 1, 2, 3, 4 in order, the label
`approach N: ` and a line break, then the data line `11 12 13 14 15 ` (trailing space
included) and a line break; nothing else is written. -/
theorem C4_program_output :
    main = (0, "approach 1: \n11 12 13 14 15 \napproach 2: \n11 12 13 14 15 \napproach 3: \n11 12 13 14 15 \napproach 4: \n11 12 13 14 15 \n") ∧
    test_trans_1 "" = "11 12 13 14 15 \n" ∧ test_trans_2 "" = "11 12 13 14 15 \n" ∧
    test_trans_3 "" = "11 12 13 14 15 \n" ∧ test_trans_4 "" = "11 12 13 14 15 \n" := by
  decide

/-- C5, as stated, fails: the label lines of a full run are `approach N: `, each ending
with a space before its line break, so none of them is the bare text `approach N:`. -/
theorem C5_counterexample :
    (linesOf main.2)[0]? = some "approach 1: " ∧ (linesOf main.2)[0]? ≠ some "approach 1:" ∧
    (linesOf main.2)[2]? = some "approach 2: " ∧ (linesOf main.2)[2]? ≠ some "approach 2:" ∧
    (linesOf main.2)[4]? = some "approach 3: " ∧ (linesOf main.2)[4]? ≠ some "approach 3:" ∧
    (linesOf main.2)[6]? = some "approach 4: " ∧ (linesOf main.2)[6]? ≠ some "approach 4:" ∧
    endsWithSpace "approach 1: " = true := by
  decide

/-- C5, amended: in the output of a full run each of the four label lines is exactly
`approach N: ` (the text `approach N:` and one space) followed by the line break, and
every line, label or data, ends with a space before its line break. -/
theorem C5_lines_of_run :
    linesOf main.2 =
      ["approach 1: ", "11 12 13 14 15 ", "approach 2: ", "11 12 13 14 15 ",
       "approach 3: ", "11 12 13 14 15 ", "approach 4: ", "11 12 13 14 15 "] ∧
    (linesOf main.2).all endsWithSpace = true := by
  decide

/-- C6: round trip. For every sequence `S` of `int` values and every `k`, the transform
with addend `k` followed by the transform with addend `-k` (also when `-k` is itself
reduced to 32 bits, as for `k = INT_MIN`) gives back `S`, element by element and with
the same length, for each of the four providers. -/
theorem C6_round_trip (S : List Int) (k : Int) (hS : ∀ x ∈ S, inInt32 x) :
    trans_1 (trans_1 S k) (-k) = S ∧ trans_1 (trans_1 S k) (wrap32 (-k)) = S ∧
    trans_2 (trans_2 S k) (-k) = S ∧ trans_3 (trans_3 S k) (-k) = S ∧
    trans_4 (trans_4 S k) (-k) = S ∧
    (trans_1 (trans_1 S k) (-k)).length = S.length ∧
    ∀ (i : Nat), (trans_1 (trans_1 S k) (-k))[i]? = S[i]? := by
  have key : ∀ m : Int, wrap32 (-k) = wrap32 m →
      (List.map (fun x => int_add x m) (List.map (fun x => int_add x k) S)) = S := by
    intro m hm
    rw [List.map_map]
    conv_rhs => rw [← List.map_id S]
    apply List.map_congr_left
    intro x hx
    have hx32 := wrap32_of_inInt32 (hS x hx)
    simp only [Function.comp_apply, int_add, id_eq]
    unfold wrap32 at hm hx32 ⊢
    omega
  have h1 : trans_1 (trans_1 S k) (-k) = S := by
    rw [trans_1_eq_map, trans_1_eq_map]; exact key _ rfl
  refine ⟨h1, ?_, ?_, ?_, ?_, by rw [h1], by rw [h1]; intro i; rfl⟩
  · rw [trans_1_eq_map, trans_1_eq_map]
    exact key _ (by unfold wrap32; omega)
  · rw [trans_2_eq_map, trans_2_eq_map]; exact key _ rfl
  · rw [trans_3_eq_map, trans_3_eq_map]; exact key _ rfl
  · rw [trans_4_eq_map, trans_4_eq_map]; exact key _ rfl

/-- C6 at the inputs of the program: `[1, 2, 3, 4, 5]` with `k = 10`, then `-10`. -/
theorem C6_round_trip_witness :
    (∀ x ∈ ([1, 2, 3, 4, 5] : List Int), inInt32 x) ∧
    trans_1 (trans_1 [1, 2, 3, 4, 5] 10) (-10) = [1, 2, 3, 4, 5] :=
  ⟨by decide, (C6_round_trip [1, 2, 3, 4, 5] 10 (by decide)).1⟩

/-- C7: for the empty sequence and every addend `k` (in particular `k = 7`) each
transform leaves the sequence empty, and the printer writes the line break only, with
no space character. -/
theorem C7_empty_sequence (k : Int) (out : String) :
    trans_1 [] k = [] ∧ trans_2 [] k = [] ∧ trans_3 [] k = [] ∧ trans_4 [] k = [] ∧
    printVec [] out = out ++ "\n" ∧
    demo_1 [] k "" = "\n" ∧ demo_2 [] k "" = "\n" ∧ demo_3 [] k "" = "\n" ∧
    demo_4 [] k "" = "\n" ∧ demo_1 [] 7 "" = "\n" ∧
    Char.ofNat 32 ∉ (demo_1 [] k "").data :=
  ⟨rfl, rfl, rfl, rfl, rfl, rfl, rfl, rfl, rfl, rfl, by
    show Char.ofNat 32 ∉ ("\n" : String).data
    decide⟩

/-- C8, as stated, fails on 32-bit `int`: with `k = 1`, a later `add_value = 0` and
`x = 2147483647`, the providers of variants B, C and D return `-2147483648`, which is
not `x + k`. -/
theorem C8_counterexample :
    inInt32 2147483647 ∧ inInt32 1 ∧ inInt32 0 ∧
    captured_2 1 0 2147483647 = (-2147483648, 0) ∧
    captured_3 1 0 2147483647 = (-2147483648, 0) ∧
    captured_4 1 0 2147483647 = (-2147483648, 0) ∧
    (captured_2 1 0 2147483647).1 ≠ 2147483647 + 1 ∧
    (captured_3 1 0 2147483647).1 ≠ 2147483647 + 1 ∧
    (captured_4 1 0 2147483647).1 ≠ 2147483647 + 1 := by
  decide

/-- C8, amended: for variants B, C and D, when the provider is built while `add_value`
holds `k` and `add_value` is afterwards assigned `k2`, the assignment takes effect on
the outer variable only: for every `x` the provider returns what a provider built from
`k` returns (the result does not depend on `k2`), and that result is `x + k` whenever
`x + k` lies within the signed 32-bit range. -/
theorem C8_capture_by_value (k k2 x : Int) :
    captured_2 k k2 x = ((Lambda2.mk k).call x, k2) ∧
    captured_3 k k2 x = ((Lambda3.mk k).call x, k2) ∧
    captured_4 k k2 x = ((bind2nd plus k).call x, k2) ∧
    (∀ k3 : Int, (captured_2 k k2 x).1 = (captured_2 k k3 x).1 ∧
      (captured_3 k k2 x).1 = (captured_3 k k3 x).1 ∧
      (captured_4 k k2 x).1 = (captured_4 k k3 x).1) ∧
    (inInt32 (x + k) →
      (captured_2 k k2 x).1 = x + k ∧ (captured_3 k k2 x).1 = x + k ∧
      (captured_4 k k2 x).1 = x + k) :=
  ⟨rfl, rfl, rfl, fun _ => ⟨rfl, rfl, rfl⟩, fun h =>
    ⟨int_add_exact h, int_add_exact h, int_add_exact h⟩⟩

/-- C8, amended, at `k = 10`, `k2 = 99`, `x = 5`: the sum is in range and each provider
still returns 15 after the assignment. -/
theorem C8_capture_by_value_witness :
    inInt32 (5 + 10) ∧
    ((captured_2 10 99 5).1 = 5 + 10 ∧ (captured_3 10 99 5).1 = 5 + 10 ∧
      (captured_4 10 99 5).1 = 5 + 10) :=
  ⟨by decide, (C8_capture_by_value 10 99 5).2.2.2.2 (by decide)⟩

/-- C9: transform primitive. For every sequence `S` and every unary function `f` on
integers, the in-place transform keeps the length, leaves `f S[i]` at every valid index
`i` (and nothing at an invalid one), and so equals the element-wise map of `f` over `S`. -/
theorem C9_transform_primitive (f : Int → Int) (S : List Int) :
    (transform f S).length = S.length ∧
    (∀ i : Nat, (transform f S)[i]? = (S[i]?).map f) ∧
    transform f S = S.map f := by
  rw [transform_eq_map]
  exact ⟨by simp, fun i => by simp, rfl⟩

/-- C10, as stated, fails in its general part on 32-bit `int`: with `S = [2147483647]`
and `k = 1` the emitted line is `-2147483648 ` and a line break, while the printer
output of the sequence of sums `[2147483648]` is `2147483648 ` and a line break. -/
theorem C10_counterexample :
    inInt32 2147483647 ∧ inInt32 1 ∧
    demo_1 [2147483647] 1 "" = "-2147483648 \n" ∧
    printVec [2147483647 + 1] "" = "2147483648 \n" ∧
    demo_1 [2147483647] 1 "" ≠ printVec [2147483647 + 1] "" := by
  decide

/-- C10, amended: with `S = [-3, -1, 1, 3]` and `k = 2` the emitted line is `-1 1 3 5 `
plus a line break, with `S = [0]` and `k = 0` it is `0 ` plus a line break; in general,
for every `S` and `k` such that every `S[i] + k` lies within the signed 32-bit range,
each demonstration emits the printer output of the sequence whose i-th element is
`S[i] + k`; the decimal text of a negative value is a minus sign followed by the text
of its absolute value. -/
theorem C10_transform_then_print (S : List Int) (k : Int) (out : String)
    (h : ∀ x ∈ S, inInt32 (x + k)) :
    demo_1 [-3, -1, 1, 3] 2 "" = "-1 1 3 5 \n" ∧ demo_1 [0] 0 "" = "0 \n" ∧
    demo_1 S k out = printVec (S.map fun x => x + k) out ∧
    demo_2 S k out = printVec (S.map fun x => x + k) out ∧
    demo_3 S k out = printVec (S.map fun x => x + k) out ∧
    demo_4 S k out = printVec (S.map fun x => x + k) out ∧
    ∀ z : Int, z < 0 → decimal z = "-" ++ decimal (-z) := by
  refine ⟨by decide, by decide, ?_, ?_, ?_, ?_, ?_⟩
  · rw [demo_1, trans_1_eq_map, map_int_add_exact S k h]
  · rw [demo_2, trans_2_eq_map, map_int_add_exact S k h]
  · rw [demo_3, trans_3_eq_map, map_int_add_exact S k h]
  · rw [demo_4, trans_4_eq_map, map_int_add_exact S k h]
  · intro z hz
    cases z with
    | ofNat n => exact absurd hz (by simp)
    | negSucc n => rfl

/-- C10, amended, at `S = [-3, -1, 1, 3]`, `k = 2`: every sum is in range and the line
of `test_trans_1` run on these locals is the printer output of `[-1, 1, 3, 5]`. -/
theorem C10_transform_then_print_witness :
    (∀ x ∈ ([-3, -1, 1, 3] : List Int), inInt32 (x + 2)) ∧
    demo_1 [-3, -1, 1, 3] 2 "" = printVec (([-3, -1, 1, 3] : List Int).map fun x => x + 2) "" ∧
    (-3 : Int) < 0 ∧ decimal (-3) = "-" ++ decimal (- -3) :=
  ⟨by decide, (C10_transform_then_print [-3, -1, 1, 3] 2 "" (by decide)).2.2.1, by decide,
    (C10_transform_then_print [-3, -1, 1, 3] 2 "" (by decide)).2.2.2.2.2.2 (-3) (by decide)⟩

/-! ## Lemmas on the checked runs -/

theorem transformLoopChecked_append (op : Int → Int) (k : Int) (suf : List Int) :
    (∀ x ∈ suf, inInt32 (x + k)) → ∀ pre : List Int,
      transformLoopChecked op k suf.length pre.length (pre ++ suf)
        = some (pre ++ suf.map op) := by
  induction suf with
  | nil => intro _ pre; simp [transformLoopChecked]
  | cons x suf ih =>
    intro h pre
    have hget : (pre ++ x :: suf)[pre.length]? = some x := by
      rw [List.getElem?_append_right (Nat.le_refl _)]; simp
    have hset : (pre ++ x :: suf).set pre.length (op x) = (pre ++ [op x]) ++ suf := by simp
    have hlen : pre.length + 1 = (pre ++ [op x]).length := by simp
    have hx : inInt32 (x + k) := h x (List.mem_cons_self _ _)
    simp only [List.length_cons, transformLoopChecked, hget, hset, hx, if_true]
    rw [hlen, ih (fun y hy => h y (List.mem_cons_of_mem _ hy)) (pre ++ [op x])]
    simp

theorem printLoopChecked_append (suf : List Int) :
    ∀ (pre : List Int) (out : String),
      printLoopChecked suf.length pre.length (pre ++ suf) out = some (printLoop suf out) := by
  induction suf with
  | nil => intro pre out; simp [printLoopChecked, printLoop]
  | cons x suf ih =>
    intro pre out
    have hget : (pre ++ x :: suf)[pre.length]? = some x := by
      rw [List.getElem?_append_right (Nat.le_refl _)]; simp
    have hlen : pre.length + 1 = (pre ++ [x]).length := by simp
    have happ : pre ++ x :: suf = (pre ++ [x]) ++ suf := by simp
    simp only [List.length_cons, printLoopChecked, hget, printLoop]
    rw [hlen, happ, ih (pre ++ [x])]

theorem demoChecked_eq (op : Int → Int) (v : List Int) (k : Int) (out : String)
    (h : ∀ x ∈ v, inInt32 (x + k)) :
    demoChecked op v k out = some (printVec (transform op v) out) := by
  have h1 := transformLoopChecked_append op k v h []
  have h2 := printLoopChecked_append (v.map op) [] out
  simp only [List.nil_append, List.length_nil] at h1 h2
  simp only [demoChecked, h1, h2, printVec, transform_eq_map]

theorem checked_run_faults :
    transformLoopChecked (Adder.mk 1).call 1 1 0 [2147483647] = none ∧
    transformLoopChecked (Adder.mk 10).call 10 1 5 [1, 2, 3, 4, 5] = none ∧
    printLoopChecked 1 5 [11, 12, 13, 14, 15] "" = none := by
  decide

theorem map_int_add_comp (S : List Int) (k1 k2 m : Int) (hm : wrap32 m = wrap32 (k1 + k2)) :
    List.map (fun x => int_add x k2) (List.map (fun x => int_add x k1) S)
      = List.map (fun x => int_add x m) S := by
  rw [List.map_map]
  apply List.map_congr_left
  intro x _
  simp only [Function.comp_apply, int_add]
  unfold wrap32 at hm ⊢
  omega

theorem map_int_add_zero (S : List Int) (hS : ∀ x ∈ S, inInt32 x) :
    List.map (fun x => int_add x 0) S = S := by
  conv_rhs => rw [← List.map_id S]
  apply List.map_congr_left
  intro x hx
  simp only [int_add, Int.add_zero, id_eq]
  exact wrap32_of_inInt32 (hS x hx)

/-- C11: on the fixed inputs `S = [1, 2, 3, 4, 5]`, `k = 10` every sum `S[i] + k` lies
within the signed 32-bit range and each of the four providers returns the exact sum;
the checked run of each demonstration, which faults on a sum out of range or on an
element access at an invalid index (in the transform or in the printer), completes and
gives the output of the demonstration, and each transform leaves `[11, 12, 13, 14, 15]`. -/
theorem C11_fixed_inputs_total :
    (∀ x ∈ ([1, 2, 3, 4, 5] : List Int),
      inInt32 (x + 10) ∧ (Adder.mk 10).call x = x + 10 ∧ (Lambda2.mk 10).call x = x + 10 ∧
      (Lambda3.mk 10).call x = x + 10 ∧ (bind2nd plus 10).call x = x + 10) ∧
    demoChecked (Adder.mk 10).call [1, 2, 3, 4, 5] 10 "" = some (test_trans_1 "") ∧
    demoChecked (Lambda2.mk 10).call [1, 2, 3, 4, 5] 10 "" = some (test_trans_2 "") ∧
    demoChecked (Lambda3.mk 10).call [1, 2, 3, 4, 5] 10 "" = some (test_trans_3 "") ∧
    demoChecked (bind2nd plus 10).call [1, 2, 3, 4, 5] 10 "" = some (test_trans_4 "") ∧
    transformLoopChecked (Adder.mk 10).call 10 5 0 [1, 2, 3, 4, 5] = some [11, 12, 13, 14, 15] ∧
    printLoopChecked 5 0 [11, 12, 13, 14, 15] "" = some "11 12 13 14 15 " ∧
    trans_1 [1, 2, 3, 4, 5] 10 = [11, 12, 13, 14, 15] ∧
    trans_2 [1, 2, 3, 4, 5] 10 = [11, 12, 13, 14, 15] ∧
    trans_3 [1, 2, 3, 4, 5] 10 = [11, 12, 13, 14, 15] ∧
    trans_4 [1, 2, 3, 4, 5] 10 = [11, 12, 13, 14, 15] := by
  decide

/-- C12: idempotence of construction. For each of the four variants, two providers
constructed with equal addends return identical outputs on every input `x`; the result
is the same function of the addend and `x` for every construction, the 32-bit sum. -/
theorem C12_construction_idempotent (k1 k2 : Int) (h : k1 = k2) (x : Int) :
    (Adder.mk k1).call x = (Adder.mk k2).call x ∧
    (Lambda2.mk k1).call x = (Lambda2.mk k2).call x ∧
    (Lambda3.mk k1).call x = (Lambda3.mk k2).call x ∧
    (bind2nd plus k1).call x = (bind2nd plus k2).call x ∧
    (Adder.mk k1).call x = int_add x k1 ∧ (Lambda2.mk k1).call x = int_add x k1 ∧
    (Lambda3.mk k1).call x = int_add x k1 ∧ (bind2nd plus k1).call x = int_add x k1 := by
  subst h
  exact ⟨rfl, rfl, rfl, rfl, rfl, rfl, rfl, rfl⟩

/-- C12 at `k = 10`, `x = 5`: two `Adder(10)` objects both return 15. -/
theorem C12_construction_idempotent_witness :
    (10 : Int) = 10 ∧ (Adder.mk 10).call 5 = (Adder.mk 10).call 5 ∧
    (Adder.mk 10).call 5 = int_add 5 10 :=
  ⟨rfl, (C12_construction_idempotent 10 10 rfl 5).1,
    (C12_construction_idempotent 10 10 rfl 5).2.2.2.2.1⟩

/-- C13: with `int` as 32-bit signed integers whose addition wraps modulo `2^32` (the
machine sum is in range and differs from the exact sum by a multiple of `2^32`), for
every `S` and `k` such that `INT_MIN <= S[i] + k <= INT_MAX` for every index, each
element after any of the four transforms is the exact sum `S[i] + k`; and outside that
precondition, at `S = [2147483647]`, `k = 1`, the wrapped result `-2147483648` differs
from the exact sum. -/
theorem C13_exact_when_in_range (S : List Int) (k : Int)
    (h : ∀ x ∈ S, INT_MIN ≤ x + k ∧ x + k ≤ INT_MAX) :
    (∀ x y : Int, inInt32 (int_add x y) ∧ (int_add x y - (x + y)) % 4294967296 = 0) ∧
    trans_1 S k = S.map (fun x => x + k) ∧ trans_2 S k = S.map (fun x => x + k) ∧
    trans_3 S k = S.map (fun x => x + k) ∧ trans_4 S k = S.map (fun x => x + k) ∧
    (∀ i : Nat, (trans_1 S k)[i]? = (S[i]?).map (fun x => x + k)) ∧
    (¬ (INT_MIN ≤ 2147483647 + 1 ∧ 2147483647 + 1 ≤ INT_MAX) ∧
      trans_1 [2147483647] 1 = [-2147483648] ∧
      trans_1 [2147483647] 1 ≠ [2147483647 + 1]) := by
  have e1 : trans_1 S k = S.map (fun x => x + k) := by
    rw [trans_1_eq_map, map_int_add_exact S k h]
  refine ⟨?_, e1, ?_, ?_, ?_, ?_, by decide⟩
  · intro x y
    refine ⟨inInt32_wrap32 _, ?_⟩
    unfold int_add wrap32
    omega
  · rw [trans_2_eq_map, map_int_add_exact S k h]
  · rw [trans_3_eq_map, map_int_add_exact S k h]
  · rw [trans_4_eq_map, map_int_add_exact S k h]
  · intro i; rw [e1]; simp

/-- C13 at the inputs of the program: every sum of `[1, 2, 3, 4, 5]` and `10` is in
range and the transform of `test_trans_1` gives the exact sums. -/
theorem C13_exact_when_in_range_witness :
    (∀ x ∈ ([1, 2, 3, 4, 5] : List Int), INT_MIN ≤ x + 10 ∧ x + 10 ≤ INT_MAX) ∧
    trans_1 [1, 2, 3, 4, 5] 10 = ([1, 2, 3, 4, 5] : List Int).map (fun x => x + 10) :=
  ⟨by decide, (C13_exact_when_in_range [1, 2, 3, 4, 5] 10 (by decide)).2.1⟩

/-- C14: composition of addends. For every sequence `S` of `int` values and all `k1`,
`k2`, the transform with `k1` followed by the transform with `k2` gives the same
sequence as one transform with `k1 + k2` (also when that addend is itself the 32-bit
sum of `k1` and `k2`), for each of the four providers; the transform with addend 0
leaves `S` unchanged. -/
theorem C14_addends_compose (S : List Int) (k1 k2 : Int) (hS : ∀ x ∈ S, inInt32 x) :
    trans_1 (trans_1 S k1) k2 = trans_1 S (k1 + k2) ∧
    trans_1 (trans_1 S k1) k2 = trans_1 S (int_add k1 k2) ∧
    trans_2 (trans_2 S k1) k2 = trans_2 S (k1 + k2) ∧
    trans_3 (trans_3 S k1) k2 = trans_3 S (k1 + k2) ∧
    trans_4 (trans_4 S k1) k2 = trans_4 S (k1 + k2) ∧
    trans_1 S 0 = S ∧ trans_2 S 0 = S ∧ trans_3 S 0 = S ∧ trans_4 S 0 = S := by
  refine ⟨?_, ?_, ?_, ?_, ?_, ?_, ?_, ?_, ?_⟩
  · simp only [trans_1_eq_map]; exact map_int_add_comp S k1 k2 _ rfl
  · simp only [trans_1_eq_map]
    exact map_int_add_comp S k1 k2 _ (wrap32_of_inInt32 (inInt32_wrap32 _))
  · simp only [trans_2_eq_map]; exact map_int_add_comp S k1 k2 _ rfl
  · simp only [trans_3_eq_map]; exact map_int_add_comp S k1 k2 _ rfl
  · simp only [trans_4_eq_map]; exact map_int_add_comp S k1 k2 _ rfl
  · rw [trans_1_eq_map]; exact map_int_add_zero S hS
  · rw [trans_2_eq_map]; exact map_int_add_zero S hS
  · rw [trans_3_eq_map]; exact map_int_add_zero S hS
  · rw [trans_4_eq_map]; exact map_int_add_zero S hS

/-- C14 at `S = [1, 2, 3, 4, 5]`, `k1 = 10`, `k2 = 20`: both routes give
`[31, 32, 33, 34, 35]`, and addend 0 changes nothing. -/
theorem C14_addends_compose_witness :
    (∀ x ∈ ([1, 2, 3, 4, 5] : List Int), inInt32 x) ∧
    trans_1 (trans_1 [1, 2, 3, 4, 5] 10) 20 = trans_1 [1, 2, 3, 4, 5] (10 + 20) ∧
    trans_1 [1, 2, 3, 4, 5] 0 = [1, 2, 3, 4, 5] :=
  ⟨by decide, (C14_addends_compose [1, 2, 3, 4, 5] 10 20 (by decide)).1,
    (C14_addends_compose [1, 2, 3, 4, 5] 10 20 (by decide)).2.2.2.2.2.1⟩

/-! ## Lemmas on the characters of a printed line -/

theorem digitChar_plain (d : Nat) (hd : d < 10) :
    Nat.digitChar d ≠ Char.ofNat 32 ∧ Nat.digitChar d ≠ Char.ofNat 10 := by
  interval_cases d <;> decide

theorem toDigitsCore_plain :
    ∀ (fuel n : Nat) (ds : List Char),
      (∀ c ∈ ds, c ≠ Char.ofNat 32 ∧ c ≠ Char.ofNat 10) →
      ∀ c ∈ Nat.toDigitsCore 10 fuel n ds, c ≠ Char.ofNat 32 ∧ c ≠ Char.ofNat 10 := by
  intro fuel
  induction fuel with
  | zero => intro n ds h c hc; exact h c (by simpa [Nat.toDigitsCore] using hc)
  | succ fuel ih =>
    intro n ds h c hc
    have hcons : ∀ c ∈ Nat.digitChar (n % 10) :: ds, c ≠ Char.ofNat 32 ∧ c ≠ Char.ofNat 10 := by
      intro c hc
      rcases List.mem_cons.mp hc with rfl | hc
      · exact digitChar_plain _ (Nat.mod_lt _ (by decide))
      · exact h c hc
    unfold Nat.toDigitsCore at hc
    by_cases hq : n / 10 = 0
    · simp only [hq, if_true] at hc
      exact hcons c hc
    · simp only [hq, if_false] at hc
      exact ih _ _ hcons c hc

theorem toDigitsCore_ne_nil :
    ∀ (fuel n : Nat) (ds : List Char), ds ≠ [] → Nat.toDigitsCore 10 fuel n ds ≠ [] := by
  intro fuel
  induction fuel with
  | zero => intro n ds h; simpa [Nat.toDigitsCore] using h
  | succ fuel ih =>
    intro n ds _
    unfold Nat.toDigitsCore
    by_cases hq : n / 10 = 0
    · simp [hq]
    · simp only [hq, if_false]
      exact ih _ _ (List.cons_ne_nil _ _)

theorem repr_plain (n : Nat) :
    ∀ c ∈ (Nat.repr n).data, c ≠ Char.ofNat 32 ∧ c ≠ Char.ofNat 10 := by
  intro c hc
  have hc2 : c ∈ Nat.toDigitsCore 10 (n + 1) n [] := by
    simpa [Nat.repr, Nat.toDigits, List.asString] using hc
  exact toDigitsCore_plain (n + 1) n [] (fun c hc => absurd hc (List.not_mem_nil c)) c hc2

theorem repr_ne_nil (n : Nat) : (Nat.repr n).data ≠ [] := by
  have h : Nat.toDigitsCore 10 (n + 1) n [] ≠ [] := by
    unfold Nat.toDigitsCore
    by_cases hq : n / 10 = 0
    · simp [hq]
    · simp only [hq, if_false]
      exact toDigitsCore_ne_nil _ _ _ (List.cons_ne_nil _ _)
  simpa [Nat.repr, Nat.toDigits, List.asString] using h

theorem decimal_plain (z : Int) :
    ∀ c ∈ (decimal z).data, c ≠ Char.ofNat 32 ∧ c ≠ Char.ofNat 10 := by
  intro c hc
  cases z with
  | ofNat n => exact repr_plain n c hc
  | negSucc n =>
    simp only [decimal, String.data_append, List.mem_append] at hc
    rcases hc with hc | hc
    · have : c = Char.ofNat 45 := by simpa using hc
      subst this
      decide
    · exact repr_plain _ c hc

theorem decimal_ne_empty (z : Int) : decimal z ≠ "" := by
  intro h
  have hd : (decimal z).data = [] := by rw [h]
  cases z with
  | ofNat n => exact repr_ne_nil n hd
  | negSucc n =>
    simp only [decimal, String.data_append] at hd
    exact repr_ne_nil _ (List.append_eq_nil.mp hd).2

theorem printVec_data (S : List Int) :
    (printVec S "").data
      = (S.map fun e => (decimal e).data ++ [Char.ofNat 32]).flatten ++ [Char.ofNat 10] := by
  have h := printLoop_data S ""
  simp only [printVec, endl, String.data_append, h]
  rfl

theorem count_body (S : List Int) :
    (S.map fun e => (decimal e).data ++ [Char.ofNat 32]).flatten.count (Char.ofNat 32) = S.length ∧
    (S.map fun e => (decimal e).data ++ [Char.ofNat 32]).flatten.count (Char.ofNat 10) = 0 := by
  induction S with
  | nil => simp
  | cons e rest ih =>
    have h32 : (decimal e).data.count (Char.ofNat 32) = 0 :=
      List.count_eq_zero.mpr fun hm => (decimal_plain e _ hm).1 rfl
    have h10 : (decimal e).data.count (Char.ofNat 10) = 0 :=
      List.count_eq_zero.mpr fun hm => (decimal_plain e _ hm).2 rfl
    have hne : (Char.ofNat 32 == Char.ofNat 10) = false := by decide
    constructor
    · simp only [List.map_cons, List.flatten_cons, List.count_append, h32, ih.1,
        List.count_singleton_self, List.length_cons]
      omega
    · simp only [List.map_cons, List.flatten_cons, List.count_append, h10, ih.2,
        List.count_singleton, hne]
      simp

theorem splitAux_piece (sep : Char) (w : List Char) :
    (∀ c ∈ w, c ≠ sep) → ∀ (cur rest : List Char),
      splitAux sep (w ++ sep :: rest) cur
        = String.mk (cur.reverse ++ w) :: splitAux sep rest [] := by
  induction w with
  | nil => intro _ cur rest; simp [splitAux]
  | cons c w ih =>
    intro h cur rest
    have hc : c ≠ sep := h c (List.mem_cons_self _ _)
    have hw : ∀ d ∈ w, d ≠ sep := fun d hd => h d (List.mem_cons_of_mem _ hd)
    have hstep : splitAux sep (c :: (w ++ sep :: rest)) cur
        = splitAux sep (w ++ sep :: rest) (c :: cur) := by
      simp [splitAux, hc]
    rw [List.cons_append, hstep, ih hw (c :: cur) rest]
    simp

theorem splitAux_body (S : List Int) :
    splitAux (Char.ofNat 32) (S.map fun e => (decimal e).data ++ [Char.ofNat 32]).flatten []
      = S.map decimal ++ [""] := by
  induction S with
  | nil => rfl
  | cons e rest ih =>
    have hp := splitAux_piece (Char.ofNat 32) (decimal e).data
      (fun c hc => (decimal_plain e c hc).1) []
      (rest.map fun e => (decimal e).data ++ [Char.ofNat 32]).flatten
    simp only [List.map_cons, List.flatten_cons, List.append_assoc, List.singleton_append,
      List.cons_append, List.nil_append]
    rw [hp, ih]
    simp

/-- C15: for every sequence `S` the line written by the printer contains exactly `|S|`
space characters and exactly one line break, which is its last character; splitting the
line without its line break at the spaces gives, in index order, the `|S|` decimal
texts, followed only by the empty piece after the last space. -/
theorem C15_line_shape (S : List Int) :
    (printVec S "").data.count (Char.ofNat 32) = S.length ∧
    (printVec S "").data.count (Char.ofNat 10) = 1 ∧
    (printVec S "").data.getLast? = some (Char.ofNat 10) ∧
    splitAtChar (Char.ofNat 32) (withoutLast (printVec S "")) = S.map decimal ++ [""] ∧
    (splitAtChar (Char.ofNat 32) (withoutLast (printVec S ""))).dropLast = S.map decimal ∧
    (splitAtChar (Char.ofNat 32) (withoutLast (printVec S ""))).filter (fun p => p ≠ "")
      = S.map decimal := by
  have hsplit : splitAtChar (Char.ofNat 32) (withoutLast (printVec S ""))
      = S.map decimal ++ [""] := by
    simp only [splitAtChar, withoutLast, printVec_data, List.dropLast_concat]
    exact splitAux_body S
  have hcnt := count_body S
  have hne : (Char.ofNat 10 == Char.ofNat 32) = false := by decide
  refine ⟨?_, ?_, ?_, hsplit, ?_, ?_⟩
  · rw [printVec_data, List.count_append, hcnt.1, List.count_singleton, hne]
    simp
  · rw [printVec_data, List.count_append, hcnt.2, List.count_singleton_self]
  · rw [printVec_data]; simp
  · rw [hsplit, List.dropLast_concat]
  · rw [hsplit, List.filter_append]
    have hall : (S.map decimal).filter (fun p => p ≠ "") = S.map decimal := by
      apply List.filter_eq_self.mpr
      intro p hp
      obtain ⟨e, _, rfl⟩ := List.mem_map.mp hp
      simpa using decimal_ne_empty e
    rw [hall]
    simp

end Spec2Proof
